import Mathlib

/-!
Verification development for the `readwise_to_markdown` exporter.

The Python source (`readwise_to_markdown.py`) is shallowly embedded below:
dictionaries of optional JSON fields become structures of `Option (Option _)`
fields (`none` = key absent, `some none` = key present with `null`,
`some (some v)` = key present with value `v`), Python truthiness (`x or d`,
`if not x`) becomes explicit matches on those options, the paginated HTTP
API becomes an explicit list of response pages, and code paths that can
raise (`None.title()`, ordering `None` against `str` inside `sorted`)
return `Except PyErr _`.  Unicode-sensitive Python primitives (`str.lower`,
`\w`, `\s`, `str.title`) are modelled on their ASCII behaviour, and the
rendering of a float (`reading_progress`) is modelled by an exact decimal
rendering of a rational.
-/

namespace RW

/-- Numeric value of a decimal digit character. -/
def digitVal (c : Char) : Nat := c.toNat - 48

/-- Fuel-indexed accumulator form of the decimal representation of a `Nat`
(models Python `str(n)` for `n ≥ 0`); structural in the fuel so that the
kernel can evaluate it. -/
def natReprGo : Nat → Nat → List Char → List Char
  | 0, _, acc => acc
  | fuel + 1, n, acc =>
    if n < 10 then Nat.digitChar (n % 10) :: acc
    else natReprGo fuel (n / 10) (Nat.digitChar (n % 10) :: acc)

/-- Decimal digit list of a `Nat` (the fuel `n + 1` always suffices). -/
def natReprChars (n : Nat) : List Char := natReprGo (n + 1) n []

/-- Python `str(n)` for a nonnegative integer. -/
def natRepr (n : Nat) : String := ⟨natReprChars n⟩

/-- Python `str(i)` for an integer. -/
def intRepr (i : Int) : String :=
  if i < 0 then "-" ++ natRepr i.natAbs else natRepr i.natAbs

/-- Value of a decimal digit string (folds digits most-significant first). -/
def digitsVal (l : List Char) : Nat := l.foldl (fun a c => 10 * a + digitVal c) 0

/-- Two strings are equal when their character lists are. -/
theorem string_ext {a b : String} (h : a.data = b.data) : a = b := by
  cases a; cases b; exact congrArg String.mk h

theorem natReprGo_congr {n : Nat} : ∀ {f₁ f₂ : Nat}, n < f₁ → n < f₂ → ∀ acc : List Char,
    natReprGo f₁ n acc = natReprGo f₂ n acc := by
  induction n using Nat.strong_induction_on with
  | _ n ih =>
    intro f₁ f₂ h₁ h₂ acc
    cases f₁ with
    | zero => omega
    | succ f₁ =>
      cases f₂ with
      | zero => omega
      | succ f₂ =>
        rw [natReprGo, natReprGo]
        by_cases h : n < 10
        · rw [if_pos h, if_pos h]
        · rw [if_neg h, if_neg h]
          exact ih (n / 10) (by omega) (by omega) (by omega) _

theorem natReprGo_append (fuel n : Nat) (acc : List Char) (h : n < fuel) :
    natReprGo fuel n acc = natReprGo fuel n [] ++ acc := by
  induction fuel generalizing n acc with
  | zero => omega
  | succ fuel ih =>
    rw [natReprGo, natReprGo]
    by_cases h10 : n < 10
    · rw [if_pos h10, if_pos h10]; simp
    · rw [if_neg h10, if_neg h10]
      have hf : n / 10 < fuel := by omega
      rw [ih (n / 10) _ hf, ih (n / 10) (_ :: []) hf]
      simp

theorem natReprChars_small {n : Nat} (h : n < 10) :
    natReprChars n = [Nat.digitChar n] := by
  rw [natReprChars, natReprGo, if_pos h, Nat.mod_eq_of_lt h]

theorem natReprChars_large {n : Nat} (h : ¬ n < 10) :
    natReprChars n = natReprChars (n / 10) ++ [Nat.digitChar (n % 10)] := by
  have hcg : natReprGo n (n / 10) [Nat.digitChar (n % 10)] =
      natReprGo (n / 10 + 1) (n / 10) [Nat.digitChar (n % 10)] :=
    natReprGo_congr (by omega) (by omega) _
  rw [natReprChars, natReprGo, if_neg h, hcg]
  exact natReprGo_append _ _ _ (by omega)

theorem digitVal_digitChar {d : Nat} (h : d < 10) : digitVal (Nat.digitChar d) = d := by
  interval_cases d <;> decide

theorem digitChar_toNat_range {d : Nat} (h : d < 10) :
    48 ≤ (Nat.digitChar d).toNat ∧ (Nat.digitChar d).toNat ≤ 57 := by
  interval_cases d <;> decide

theorem digitsVal_append_singleton (l : List Char) (c : Char) :
    digitsVal (l ++ [c]) = 10 * digitsVal l + digitVal c := by
  simp [digitsVal]

theorem digitsVal_natReprChars (n : Nat) : digitsVal (natReprChars n) = n := by
  induction n using Nat.strong_induction_on with
  | _ n ih =>
    by_cases h : n < 10
    · rw [natReprChars_small h]
      simp [digitsVal, digitVal_digitChar h]
    · rw [natReprChars_large h, digitsVal_append_singleton,
        ih (n / 10) (by omega), digitVal_digitChar (by omega)]
      omega

theorem natRepr_injective {m n : Nat} (h : natRepr m = natRepr n) : m = n := by
  have hd : natReprChars m = natReprChars n := congrArg String.data h
  have := digitsVal_natReprChars m
  rw [hd, digitsVal_natReprChars] at this
  omega

theorem natReprChars_ne_nil (n : Nat) : natReprChars n ≠ [] := by
  by_cases h : n < 10
  · rw [natReprChars_small h]; simp
  · rw [natReprChars_large h]; simp

theorem mem_natReprChars_range {n : Nat} {c : Char} (h : c ∈ natReprChars n) :
    48 ≤ c.toNat ∧ c.toNat ≤ 57 := by
  induction n using Nat.strong_induction_on with
  | _ n ih =>
    by_cases hn : n < 10
    · rw [natReprChars_small hn] at h
      rcases List.mem_singleton.mp h with rfl
      exact digitChar_toNat_range hn
    · rw [natReprChars_large hn] at h
      rcases List.mem_append.mp h with h' | h'
      · exact ih (n / 10) (by omega) h'
      · rcases List.mem_singleton.mp h' with rfl
        exact digitChar_toNat_range (by omega)

theorem hyphen_not_mem_natReprChars {n : Nat} : '-' ∉ natReprChars n := by
  intro h
  have := mem_natReprChars_range h
  revert this; decide

/-- Python `dict.get(k)` with no default: an absent key and a `null` value both
give `None`. -/
def jget (f : Option (Option α)) : Option α := f.bind id

/-- Python `dict.get(k, d)`: an absent key gives `d`, a `null` value stays `None`. -/
def jgetD (f : Option (Option α)) (d : α) : Option α := f.getD (some d)

/-- Python `v or d` for a possibly-`None` string (`None` and `""` are falsy). -/
def pyOrStr (v : Option String) (d : String) : String :=
  match v with
  | none => d
  | some s => if s = "" then d else s

/-- Python `v or d` for a possibly-`None` integer (`None` and `0` are falsy). -/
def pyOrInt (v : Option Int) (d : Int) : Int :=
  match v with
  | none => d
  | some n => if n = 0 then d else n

/-- Python `v or d` for a possibly-`None` number (`None` and `0` are falsy). -/
def pyOrRat (v : Option ℚ) (d : ℚ) : ℚ :=
  match v with
  | none => d
  | some q => if q = 0 then d else q

/-- Python rendering of a possibly-`None` string inside an f-string. -/
def pyStrOpt (v : Option String) : String :=
  match v with
  | none => "None"
  | some s => s

/-- ASCII model of the Python regex class `\w` (alphanumerics and underscore). -/
def isWordChar (c : Char) : Bool := c.isAlphanum || c = '_'

/-- Model of the Python regex class `\s` and of `str.strip()` whitespace. -/
def isSpaceChar (c : Char) : Bool := c.isWhitespace

/-- Model of `str.strip(chars)`: drop `p`-characters from both ends. -/
def stripChars (p : Char → Bool) (l : List Char) : List Char :=
  ((l.dropWhile p).reverse.dropWhile p).reverse

/-- State-carrying form of run collapsing: the boolean records whether the
previous character belonged to a `p`-run. -/
def collapseRunsAux (p : Char → Bool) (r : Char) : Bool → List Char → List Char
  | _, [] => []
  | inRun, c :: rest =>
    if p c then
      (if inRun then collapseRunsAux p r true rest else r :: collapseRunsAux p r true rest)
    else c :: collapseRunsAux p r false rest

/-- Model of `re.sub(pat+, r, text)` for a character class `p`: each maximal
run of `p`-characters becomes the single character `r`. -/
def collapseRuns (p : Char → Bool) (r : Char) (l : List Char) : List Char :=
  collapseRunsAux p r false l

/-- Embeds `slugify` (readwise_to_markdown.py lines 89-95). -/
def slugify (text : String) (max_len : Nat := 80) : String :=
  let l0 := text.data.map Char.toLower
  let l1 := stripChars isSpaceChar l0
  let l2 := l1.filter (fun c => isWordChar c || isSpaceChar c || c = '-')
  let l3 := collapseRuns (fun c => isSpaceChar c || c = '_') '-' l2
  let l4 := stripChars (fun c => c = '-') (collapseRuns (fun c => c = '-') '-' l3)
  if l4 = [] then "untitled" else ⟨l4.take max_len⟩

/-- The characters that force quoting in `yaml_escape` (source line 114):
colon, braces, brackets, hash, ampersand, star, bang, pipe, greater-than,
single quote, double quote, at, backtick, comma and percent. -/
def yamlSpecialChars : List Char :=
  [':', Char.ofNat 123, Char.ofNat 125, '[', ']', '#', '&', '*', '!', '|', '>',
   Char.ofNat 39, '"', '@', Char.ofNat 96, ',', '%']

/-- Model of `val.replace(chr(34), chr(92)+chr(34))`: backslash-escape every
double quote. -/
def escapeQuotes (l : List Char) : List Char :=
  l.flatMap (fun c => if c = '"' then ['\\', c] else [c])

/-- Embeds `yaml_escape` (lines 109-116); the argument is the Python value
(`none` is Python `None`; other values arrive as their `str` form). -/
def yaml_escape (val : Option String) : String :=
  match val with
  | none => "\"\""
  | some v =>
    if v.data.any (fun c => c ∈ yamlSpecialChars) then "\"" ++ ⟨escapeQuotes v.data⟩ ++ "\""
    else v

/-- Model of `date_str.replace("Z", "+00:00")`, character-wise (the pattern is
a single character, so Python `str.replace` acts on each occurrence). -/
def replaceZ : List Char → List Char
  | [] => []
  | c :: rest =>
    if c = 'Z' then '+' :: '0' :: '0' :: ':' :: '0' :: '0' :: replaceZ rest
    else c :: replaceZ rest

/-- Two decimal digits with an upper bound on their value. -/
def twoDigits (a b : Char) (hi : Nat) : Bool :=
  a.isDigit && b.isDigit && decide (10 * digitVal a + digitVal b ≤ hi)

/-- UTC-offset tail accepted by the `fromisoformat` model: `±HH`, `±HH:MM`
or `±HH:MM:SS`. -/
def offsetOk : List Char → Bool
  | [s, h1, h2] => (s = '+' || s = '-') && twoDigits h1 h2 23
  | [s, h1, h2, ':', m1, m2] => (s = '+' || s = '-') && twoDigits h1 h2 23 && twoDigits m1 m2 59
  | [s, h1, h2, ':', m1, m2, ':', s1, s2] =>
    (s = '+' || s = '-') && twoDigits h1 h2 23 && twoDigits m1 m2 59 && twoDigits s1 s2 59
  | _ => false

/-- Time-of-day tail accepted by the `fromisoformat` model:
`HH[:MM[:SS[.digits]]]` followed by an optional offset. -/
def timeOk (l : List Char) : Bool :=
  match l with
  | h1 :: h2 :: rest =>
    twoDigits h1 h2 23 &&
    (match rest with
     | [] => true
     | ':' :: m1 :: m2 :: rest2 =>
       twoDigits m1 m2 59 &&
       (match rest2 with
        | [] => true
        | ':' :: s1 :: s2 :: rest3 =>
          twoDigits s1 s2 59 &&
          (match rest3 with
           | [] => true
           | '.' :: fr =>
             let ds := fr.takeWhile Char.isDigit
             let rest4 := fr.dropWhile Char.isDigit
             ds ≠ [] && (rest4.isEmpty || offsetOk rest4)
           | off => offsetOk off)
        | off => offsetOk off)
     | off => offsetOk off)
  | _ => false

/-- Gregorian leap-year rule (as validated by `datetime.date`). -/
def isLeapYear (y : Nat) : Bool := y % 4 = 0 && (y % 100 ≠ 0 || y % 400 = 0)

/-- Day count of a month (as validated by `datetime.date`). -/
def daysInMonth (y m : Nat) : Nat :=
  if m = 2 then (if isLeapYear y then 29 else 28)
  else if m = 4 || m = 6 || m = 9 || m = 11 then 30 else 31

/-- Model of `datetime.fromisoformat`, restricted to the extended ISO-8601
shape `YYYY-MM-DD[{T or space}time[offset]]` produced by the exporter's data
source.  Returns year, month and day on success. -/
def py_fromisoformat (l : List Char) : Option (Nat × Nat × Nat) :=
  match l with
  | y1 :: y2 :: y3 :: y4 :: h1 :: m1 :: m2 :: h2 :: d1 :: d2 :: rest =>
    if y1.isDigit && y2.isDigit && y3.isDigit && y4.isDigit &&
       h1 = '-' && h2 = '-' && m1.isDigit && m2.isDigit && d1.isDigit && d2.isDigit then
      let y := digitsVal [y1, y2, y3, y4]
      let m := 10 * digitVal m1 + digitVal m2
      let d := 10 * digitVal d1 + digitVal d2
      if (1 ≤ m && m ≤ 12 && 1 ≤ d && d ≤ daysInMonth y m) &&
         (match rest with
          | [] => true
          | sep :: t => (sep = 'T' || sep = ' ') && timeOk t) then
        some (y, m, d)
      else none
    else none
  | _ => none

/-- Two-digit zero-padded decimal rendering (for `%m`, `%d`). -/
def pad2 (n : Nat) : List Char := [Nat.digitChar (n / 10 % 10), Nat.digitChar (n % 10)]

/-- Four-digit zero-padded decimal rendering (for `%Y` with years below 10000). -/
def pad4 (n : Nat) : List Char :=
  [Nat.digitChar (n / 1000 % 10), Nat.digitChar (n / 100 % 10),
   Nat.digitChar (n / 10 % 10), Nat.digitChar (n % 10)]

/-- Model of `dt.strftime("%Y-%m-%d")`. -/
def strfDate (y m d : Nat) : String := ⟨pad4 y ++ '-' :: (pad2 m ++ '-' :: pad2 d)⟩

/-- Embeds `format_date` (lines 98-106); `none` is Python `None`. -/
def format_date (date_str : Option String) : Option String :=
  match date_str with
  | none => none
  | some s =>
    if s = "" then none
    else
      match py_fromisoformat (replaceZ s.data) with
      | some (y, m, d) => some (strfDate y m d)
      | none => some ⟨s.data.take 10⟩

/-- ASCII model of Python `str.title()`: the boolean records whether the
previous character was a letter. -/
def pyTitleAux : Bool → List Char → List Char
  | _, [] => []
  | prevAlpha, c :: rest =>
    if c.isAlpha then
      (if prevAlpha then c.toLower else c.toUpper) :: pyTitleAux true rest
    else c :: pyTitleAux false rest

/-- ASCII model of Python `str.title()`. -/
def pyTitle (s : String) : String := ⟨pyTitleAux false s.data⟩

/-- Groups a reversed digit list in threes with commas (Python format `:,`). -/
def commaGroupRev : List Char → List Char
  | c1 :: c2 :: c3 :: rest@(_ :: _) => c1 :: c2 :: c3 :: ',' :: commaGroupRev rest
  | l => l

/-- Python `f"{n:,}"` for an integer. -/
def pyThousands (i : Int) : String :=
  let grouped := (commaGroupRev (natReprChars i.natAbs).reverse).reverse
  if i < 0 then ⟨'-' :: grouped⟩ else ⟨grouped⟩

/-- Exact-decimal model of Python `str(x)` for the numbers that appear as
`reading_progress` values (an integral value prints without a decimal point,
as after `... or 0`; binary floating-point artefacts are not modelled). -/
def pyFloatRepr (q : ℚ) : String :=
  if q.den = 1 then intRepr q.num
  else
    match (List.range 18).find? (fun k => (q * ((10 : ℚ) ^ k)).den = 1) with
    | some k =>
      let n := (q * ((10 : ℚ) ^ k)).num
      let ds := natReprChars n.natAbs
      let ds' := if ds.length ≤ k then List.replicate (k + 1 - ds.length) '0' ++ ds else ds
      (if n < 0 then "-" else "") ++ ⟨ds'.take (ds'.length - k)⟩ ++ "." ++ ⟨ds'.drop (ds'.length - k)⟩
    | none => intRepr q.num ++ "/" ++ natRepr q.den

/-- Python `int(x)` truncation toward zero on a rational. -/
def pyIntTrunc (q : ℚ) : Int := q.num.tdiv (q.den : Int)

/-- Python exception kinds raised by the rendering code. -/
inductive PyErr where
  | typeError
  | attributeError
deriving DecidableEq, Repr

/-- Payload of the `tags` field: the API may return a mapping (modelled by its
keys in insertion order), a list, or null. -/
inductive PyTags where
  | dict (keys : List String)
  | arr (elems : List String)
deriving DecidableEq, Repr

/-- A child highlight record; the renderer only reads its `content`, `title`
and `notes` keys.  `none` = key absent, `some none` = key present with null. -/
structure Highlight where
  content : Option (Option String) := none
  title : Option (Option String) := none
  notes : Option (Option String) := none
deriving DecidableEq, Repr

/-- A document as returned by the API, as a record of optional JSON fields:
`none` = key absent, `some none` = key present with null, `some (some v)` =
key present with value `v`.  `highlights` models the `_highlights` key the
enrichment loop adds. -/
structure Document where
  id : Option (Option String) := none
  title : Option (Option String) := none
  author : Option (Option String) := none
  source_url : Option (Option String) := none
  url : Option (Option String) := none
  site_name : Option (Option String) := none
  category : Option (Option String) := none
  location : Option (Option String) := none
  parent_id : Option (Option String) := none
  word_count : Option (Option Int) := none
  reading_time : Option (Option String) := none
  reading_progress : Option (Option ℚ) := none
  summary : Option (Option String) := none
  notes : Option (Option String) := none
  tags : Option (Option PyTags) := none
  saved_at : Option (Option String) := none
  published_date : Option (Option String) := none
  content : Option (Option String) := none
  highlights : Option (List Highlight) := none
deriving DecidableEq, Repr

/-- Local binding `title` of `document_to_file` (line 121). -/
def titleVal (doc : Document) : String := pyOrStr (jgetD doc.title "Untitled") "Untitled"

/-- Local binding `author` (line 122): `doc.get("author") or ""`. -/
def authorVal (doc : Document) : String := pyOrStr (jget doc.author) ""

/-- Local binding `source_url` (line 123). -/
def sourceUrlVal (doc : Document) : String := pyOrStr (jgetD doc.source_url "") ""

/-- Local binding `reader_url` (line 124): reads the `url` key. -/
def readerUrlVal (doc : Document) : String := pyOrStr (jgetD doc.url "") ""

/-- Local binding `category` (line 125): `doc.get("category", "article")`.
A present-but-null value stays `None`. -/
def categoryVal (doc : Document) : Option String := jgetD doc.category "article"

/-- Local binding `location` (line 126): `doc.get("location", "")`. -/
def locationVal (doc : Document) : Option String := jgetD doc.location ""

/-- Local binding `word_count` (line 127): `doc.get("word_count") or 0`. -/
def wordCountVal (doc : Document) : Int := pyOrInt (jget doc.word_count) 0

/-- Local binding `reading_time` (line 128). -/
def readingTimeVal (doc : Document) : String := pyOrStr (jget doc.reading_time) ""

/-- Local binding `reading_progress` (line 129). -/
def readingProgressVal (doc : Document) : ℚ := pyOrRat (jget doc.reading_progress) 0

/-- Local binding `summary` (line 130). -/
def summaryVal (doc : Document) : String := pyOrStr (jget doc.summary) ""

/-- Local binding `site_name` (line 134). -/
def siteNameVal (doc : Document) : String := pyOrStr (jget doc.site_name) ""

/-- Local binding `notes` (line 135). -/
def notesVal (doc : Document) : String := pyOrStr (jget doc.notes) ""

/-- Local binding `doc_id` (line 136): `doc.get("id", "")`. -/
def docIdVal (doc : Document) : Option String := jgetD doc.id ""

/-- Local binding `tag_list` (line 138): sorted keys for a mapping, the list
itself (or `[]` when falsy) otherwise. -/
def tagListVal (doc : Document) : List String :=
  match jgetD doc.tags (PyTags.dict []) with
  | some (PyTags.dict keys) => keys.mergeSort (fun a b => decide (a ≤ b))
  | some (PyTags.arr elems) => elems
  | none => []

/-- The conditional `saved_at` header line (lines 153-154): present only when
`format_date` yields a truthy value. -/
def savedAtLines (doc : Document) : List String :=
  match format_date (jget doc.saved_at) with
  | some sa => if sa = "" then [] else ["saved_at: " ++ sa]
  | none => []

/-- The conditional `published` header line (lines 155-156). -/
def publishedLines (doc : Document) : List String :=
  match format_date (jget doc.published_date) with
  | some p => if p = "" then [] else ["published: " ++ p]
  | none => []

/-- YAML frontmatter lines of `document_to_file` (lines 141-162). -/
def frontmatterLines (doc : Document) : List String :=
  ["---",
   "id: " ++ yaml_escape (docIdVal doc),
   "title: " ++ yaml_escape (some (titleVal doc)),
   "author: " ++ yaml_escape (some (authorVal doc)),
   "url: " ++ yaml_escape (some (sourceUrlVal doc)),
   "reader_url: " ++ yaml_escape (some (readerUrlVal doc)),
   "site: " ++ yaml_escape (some (siteNameVal doc)),
   "category: " ++ pyStrOpt (categoryVal doc),
   "location: " ++ pyStrOpt (locationVal doc),
   "word_count: " ++ intRepr (wordCountVal doc),
   "reading_time: " ++ yaml_escape (some (readingTimeVal doc)),
   "reading_progress: " ++ pyFloatRepr (readingProgressVal doc)]
  ++ savedAtLines doc
  ++ publishedLines doc
  ++ (if tagListVal doc ≠ [] then
        ["tags: [" ++ String.intercalate ", " ((tagListVal doc).map (fun t => yaml_escape (some t))) ++ "]"]
      else ["tags: []"])
  ++ ["---", ""]

/-- Value of `text` in the highlight loop (line 202):
`h.get("content", h.get("title", ""))`. -/
def highlightText (h : Highlight) : Option String := h.content.getD (jgetD h.title "")

/-- Value of `h_notes` (line 205): `h.get("notes", "")`. -/
def hNotesVal (h : Highlight) : Option String := jgetD h.notes ""

/-- Lines emitted for one highlight (lines 201-208). -/
def highlightBlock (h : Highlight) : List String :=
  match highlightText h with
  | none => []
  | some t =>
    if t = "" then []
    else ("> " ++ t) ::
      ((match hNotesVal h with
        | some hn => if hn = "" then [] else [">\n> — _" ++ hn ++ "_"]
        | none => []) ++ [""])

/-- Highlights section of `document_to_file` (lines 197-208). -/
def highlightLines (doc : Document) : List String :=
  let hs := doc.highlights.getD []
  if hs ≠ [] then ["## Highlights", ""] ++ hs.flatMap highlightBlock else []

/-- Body lines of `document_to_file` (lines 164-208). -/
def bodyLines (doc : Document) : List String :=
  ["# " ++ titleVal doc, ""]
  ++ (let meta := (if authorVal doc ≠ "" then ["**" ++ authorVal doc ++ "**"] else [])
                ++ (if siteNameVal doc ≠ "" then ["_" ++ siteNameVal doc ++ "_"] else [])
      if meta ≠ [] then [String.intercalate " · " meta, ""] else [])
  ++ (if sourceUrlVal doc ≠ "" then
        ["🔗 [" ++ (⟨(sourceUrlVal doc).data.take 80⟩ : String) ++
           (if (sourceUrlVal doc).data.length > 80 then "..." else "") ++
           "](" ++ sourceUrlVal doc ++ ")", ""]
      else [])
  ++ (if summaryVal doc ≠ "" then ["## Summary", "", "> " ++ summaryVal doc, ""] else [])
  ++ (if notesVal doc ≠ "" then ["## Notes", "", notesVal doc, ""] else [])
  ++ highlightLines doc

/-- Embeds `document_to_file` (lines 119-210). -/
def document_to_file (doc : Document) : String :=
  String.intercalate "\n" (frontmatterLines doc ++ bodyLines doc)

/-- One JSON response of the `list` endpoint: its `results` and its
`nextPageCursor` field (`none` = absent or null). -/
structure Page (α : Type) where
  results : List α := []
  nextPageCursor : Option String := none
deriving DecidableEq, Repr

/-- Python truthiness of the cursor (`if not cursor: break`, line 75): `None`
and the empty string are falsy. -/
def cursorFalsy (c : Option String) : Bool :=
  match c with
  | none => true
  | some s => s = ""

/-- Embeds `fetch_all_documents` (lines 59-79) over the sequence of pages the
API serves to its successive requests.  The loop consumes one page per
request and stops after the first page with a falsy cursor; an exhausted page
list models an API that never answers again (the claims' hypotheses rule the
case out). -/
def fetch_all_documents : List (Page α) → List α
  | [] => []
  | p :: rest =>
    p.results ++ (if cursorFalsy p.nextPageCursor then [] else fetch_all_documents rest)

/-- Number of API requests `fetch_all_documents` issues on the same pages. -/
def fetchCallCount : List (Page α) → Nat
  | [] => 0
  | p :: rest => 1 + (if cursorFalsy p.nextPageCursor then 0 else fetchCallCount rest)

/-- Embeds `fetch_highlights` (lines 82-86): one single request, no pagination
loop; only the first response page's `results` are returned. -/
def fetch_highlights (pages : List (Page α)) : List α :=
  match pages with
  | [] => []
  | p :: _ => p.results

/-- Value of `doc["id"]` in the enrichment loop (line 357); the subscript
assumes the key is present. -/
def idOf (doc : Document) : String := (jget doc.id).getD ""

/-- Embeds the highlight-enrichment loop of `main` (lines 353-360):
`doc["_highlights"] = fetch_highlights(token, doc["id"])` for every document;
`hlApi id` is the page sequence served for `parent_id = id, category =
highlight`. -/
def enrichAll (hlApi : String → List (Page Highlight)) (docs : List Document) : List Document :=
  docs.map (fun d => { d with highlights := some (fetch_highlights (hlApi (idOf d))) })

/-- The static location table `LOCATIONS` (lines 29-33). -/
def LOCATIONS : List (String × List String) :=
  [("queue", ["new", "later", "shortlist"]), ("archive", ["archive"]), ("feed", ["feed"])]

/-- Lookup `LOCATIONS[name]`. -/
def locationsFor (sectionName : String) : List String :=
  (LOCATIONS.lookup sectionName).getD []

/-- Embeds the category filter of `main` (lines 345-346): `if args.categories:`
is a Python truthiness test, so `None` and the empty list both skip the
filter; otherwise `d.get("category") in args.categories`. -/
def categoryFilterStep (cats : Option (List String)) (docs : List Document) : List Document :=
  match cats with
  | none => docs
  | some l =>
    if l = [] then docs
    else docs.filter (fun d =>
      match jget d.category with
      | some c => l.contains c
      | none => false)

/-- Embeds the top-level filter of `main` (line 347):
`d.get("parent_id") is None` keeps absent and null alike. -/
def parentFilterStep (docs : List Document) : List Document :=
  docs.filter (fun d => (jget d.parent_id).isNone)

/-- Embeds the fetch-and-filter loop of `main` (lines 341-349): `api loc` is
the page sequence the API serves for the location filter `loc`; the filtered
batches are concatenated into `all_docs` in `LOCATIONS` order. -/
def fetchPhase (api : String → List (Page Document)) (cats : Option (List String)) : List Document :=
  LOCATIONS.flatMap (fun sl =>
    sl.2.flatMap (fun loc =>
      parentFilterStep (categoryFilterStep cats (fetch_all_documents (api loc)))))

/-- Membership test `d.get("location") in LOCATIONS[name]` (lines 367, 373, 379). -/
def inSection (sectionName : String) (d : Document) : Bool :=
  match jget d.location with
  | some l => (locationsFor sectionName).contains l
  | none => false

/-- Embeds the bucket lists built in `sections` (lines 365-384). -/
def sectionDocs (sectionName : String) (all_docs : List Document) : List Document :=
  all_docs.filter (inSection sectionName)

/-- Embeds the duplicate-slug handling of `main` (lines 402-408) for one
document: from the `used_slugs` state (a map from `"{section}/{slug}"` keys to
the last-used suffix) produce the final slug and the updated state. -/
def resolveSlug (sectionName : String) (st : String → Option Nat) (slug : String) :
    String × (String → Option Nat) :=
  match st (sectionName ++ "/" ++ slug) with
  | some n => (slug ++ "-" ++ natRepr (n + 1),
      fun k => if k = sectionName ++ "/" ++ slug then some (n + 1) else st k)
  | none => (slug, fun k => if k = sectionName ++ "/" ++ slug then some 0 else st k)

/-- Filenames produced by the write loop (lines 398-411) for one section, in
document order: `{slug}.md` inside the bucket folder. -/
def writeNames (sectionName : String) : List String → (String → Option Nat) → List String
  | [], _ => []
  | s :: rest, st =>
    ((resolveSlug sectionName st s).1 ++ ".md") ::
      writeNames sectionName rest (resolveSlug sectionName st s).2

/-- Base slug of a document as computed on line 400. -/
def baseSlug (doc : Document) : String := slugify (titleVal doc)

/-- Filenames written into one bucket folder.  Keys in `used_slugs` carry the
section name as a key component (line 403), so distinct buckets of one run do
not interact; the bucket therefore starts from the empty map. -/
def bucketFilenames (sectionName : String) (docs : List Document) : List String :=
  writeNames sectionName (docs.map baseSlug) (fun _ => none)

/-- Word-count term of the total (line 219): `d.get("word_count", 0) or 0`. -/
def indexWordCount (d : Document) : Int := pyOrInt (jgetD d.word_count 0) 0

/-- Total word count of the overview (line 219). -/
def totalWords (docs : List Document) : Int := (docs.map indexWordCount).sum

/-- Category key of the counting loop (line 222): `d.get("category", "other")`. -/
def categoryKey (d : Document) : Option String := jgetD d.category "other"

/-- One step of the category-counting loop (line 223), preserving dict
insertion order. -/
def bumpCat : List (Option String × Nat) → Option String → List (Option String × Nat)
  | [], c => [(c, 1)]
  | (k, n) :: rest, c => if k = c then (k, n + 1) :: rest else (k, n) :: bumpCat rest c

/-- The `categories` counting dict (lines 220-223) as an insertion-ordered
association list. -/
def countCategories (docs : List Document) : List (Option String × Nat) :=
  docs.foldl (fun acc d => bumpCat acc (categoryKey d)) []

/-- Model of `sorted(categories.items(), key=lambda x: -x[1])` (line 241):
Python's sort is stable, so a stable merge sort by non-strict descending
count. -/
def sortedCategories (docs : List Document) : List (Option String × Nat) :=
  (countCategories docs).mergeSort (fun a b => decide (b.2 ≤ a.2))

/-- The `- **Categories:** ...` stats line (line 241). -/
def categoriesLine (docs : List Document) : String :=
  "- **Categories:** " ++ String.intercalate ", "
    ((sortedCategories docs).map (fun kv => pyStrOpt kv.1 ++ " (" ++ natRepr kv.2 ++ ")"))

/-- Sort key `d.get("saved_at", "")` (lines 249, 300). -/
def savedKey (d : Document) : Option String := jgetD d.saved_at ""

/-- Model of `sorted(docs, key=lambda d: d.get("saved_at", ""), reverse=True)`
(lines 249, 300): comparing `None` against `str` raises `TypeError`, which
happens exactly when the list has at least two elements and some key is
`None`; otherwise a stable descending sort (Python's sort keeps the original
order of equal keys even with `reverse=True`). -/
def pySortBySavedDesc (docs : List Document) : Except PyErr (List Document) :=
  if 2 ≤ docs.length && docs.any (fun d => (savedKey d).isNone) then .error .typeError
  else .ok (docs.mergeSort (fun a b => decide ((savedKey b).getD "" ≤ (savedKey a).getD "")))

/-- Membership of `d.get("location", "")` in `LOCATIONS[name]` (lines 261, 265). -/
def locMem (sectionName : String) (loc : Option String) : Bool :=
  match loc with
  | some l => (locationsFor sectionName).contains l
  | none => false

/-- One row of the All Items table (lines 250-266). -/
def indexRow (doc : Document) : String :=
  let title := titleVal doc
  let short_title := if title.data.length > 50 then (⟨title.data.take 50⟩ : String) ++ "..." else title
  let author := pyOrStr (jgetD doc.author "") ""
  let short_author := if author.data.length > 20 then (⟨author.data.take 20⟩ : String) ++ "..." else author
  let cat := pyStrOpt (jgetD doc.category "")
  let wc := pyOrInt (jget doc.word_count) 0
  let loc := jgetD doc.location ""
  let progress := pyOrRat (jget doc.reading_progress) 0
  let pct := if progress ≠ 0 then intRepr (pyIntTrunc (progress * 100)) ++ "%" else "-"
  let secName := if locMem "queue" loc then "queue" else if locMem "archive" loc then "archive" else "feed"
  let slug := slugify title
  let link := "[" ++ short_title ++ "](" ++ secName ++ "/" ++ slug ++ ".md)"
  let status := if locMem "queue" loc then "📋" else if locMem "archive" loc then "✅" else "📡"
  "| " ++ status ++ " | " ++ link ++ " | " ++ short_author ++ " | " ++ cat ++ " | " ++
    pyThousands wc ++ " | " ++ pct ++ " |"

/-- Embeds `generate_index` (lines 213-269); `now` abstracts the wall-clock
string `datetime.now().strftime(...)` of line 228. -/
def generate_index (all_docs : List Document) (now : String) : Except PyErr String :=
  let queue := sectionDocs "queue" all_docs
  let archive := sectionDocs "archive" all_docs
  let feed := sectionDocs "feed" all_docs
  match pySortBySavedDesc all_docs with
  | .error e => .error e
  | .ok sortedDocs =>
    .ok (String.intercalate "\n"
      (["# 📚 Readwise Reader Library", "",
        "_Last updated: " ++ now ++ "_", "",
        "## Sections", "",
        "- [`queue/`](queue/) — 📋 Reading Queue (" ++ natRepr queue.length ++ " items)",
        "- [`archive/`](archive/) — ✅ Archive (" ++ natRepr archive.length ++ " items)"]
       ++ (if feed ≠ [] then ["- [`feed/`](feed/) — 📡 Feed (" ++ natRepr feed.length ++ " items)"] else [])
       ++ ["",
           "## Stats", "",
           "- **Total items:** " ++ natRepr all_docs.length,
           "- **Total words:** " ++ pyThousands (totalWords all_docs),
           categoriesLine all_docs, "",
           "## All Items", "",
           "| Status | Title | Author | Category | Words | Progress |",
           "|--------|-------|--------|----------|-------|----------|"]
       ++ sortedDocs.map indexRow
       ++ [""]))

/-- Grouping step `by_category.setdefault(cat, []).append(doc)` (line 291),
preserving first-occurrence key order. -/
def addToGroup : List (Option String × List Document) → Option String → Document →
    List (Option String × List Document)
  | [], c, d => [(c, [d])]
  | (k, ds) :: rest, c, d =>
    if k = c then (k, ds ++ [d]) :: rest else (k, ds) :: addToGroup rest c d

/-- Category key of the grouping loop (line 290): `doc.get("category", "article")`. -/
def groupCategoryKey (d : Document) : Option String := jgetD d.category "article"

/-- The `by_category` dict (lines 288-291) as an insertion-ordered association
list. -/
def groupByCategory (docs : List Document) : List (Option String × List Document) :=
  docs.foldl (fun acc d => addToGroup acc (groupCategoryKey d) d) []

/-- The `cat_emojis` table (lines 293-296). -/
def cat_emojis : List (String × String) :=
  [("article", "📄"), ("email", "📧"), ("rss", "📡"), ("pdf", "📑"),
   ("epub", "📖"), ("tweet", "🐦"), ("video", "🎬"), ("highlight", "💡"), ("note", "📝")]

/-- Per-document line of a section index (lines 304-309). -/
def sectionEntryLine (doc : Document) : String :=
  let title := titleVal doc
  let slug := slugify title
  let author := pyOrStr (jgetD doc.author "") ""
  let saved := pyOrStr (format_date (jget doc.saved_at)) ""
  "- [" ++ title ++ "](" ++ slug ++ ".md) — " ++ author ++ " (" ++ saved ++ ")"

/-- Lines of one category block (lines 298-310), or the error its per-category
sort raises. -/
def categoryBlock (cat : String) (cat_docs : List Document) : Except PyErr (List String) :=
  match pySortBySavedDesc cat_docs with
  | .error e => .error e
  | .ok ds =>
    .ok (("## " ++ ((cat_emojis.lookup cat).getD "📄") ++ " " ++ pyTitle cat ++
          " (" ++ natRepr cat_docs.length ++ ")") :: "" :: (ds.map sectionEntryLine ++ [""]))

/-- Embeds `generate_section_index` (lines 272-312).  A present-but-null
category key makes the source raise: with a single `None` key `sorted`
succeeds (no comparison) but `cat.title()` raises `AttributeError`; with two
or more keys among which `None`, `sorted(by_category.keys())` raises
`TypeError` first. -/
def generate_section_index (docs : List Document) (title emoji folder_name description : String) :
    Except PyErr String :=
  let intro := ["# " ++ emoji ++ " " ++ title, ""]
    ++ (if description ≠ "" then ["_" ++ description ++ "_", ""] else [])
    ++ ["**" ++ natRepr docs.length ++ " items**", ""]
  if docs = [] then .ok (String.intercalate "\n" (intro ++ ["_Nothing here yet!_"]))
  else
    let groups := groupByCategory docs
    if groups.any (fun g => g.1.isNone) then
      (if 2 ≤ groups.length then .error .typeError else .error .attributeError)
    else
      let sortedCats := (groups.map (fun g => g.1.getD "")).mergeSort (fun a b => decide (a ≤ b))
      match sortedCats.mapM (fun c => categoryBlock c ((groups.lookup (some c)).getD [])) with
      | .error e => .error e
      | .ok blocks => .ok (String.intercalate "\n" (intro ++ blocks.flatten))

/-- A concrete article document used in witnesses. -/
def exArticle : Document :=
  { id := some (some "doc1"), title := some (some "Sample"),
    category := some (some "article"), location := some (some "new"),
    word_count := some (some 100), saved_at := some (some "2024-03-15T10:30:00Z") }

/-- A concrete document titled `foo`. -/
def fooDoc : Document := { title := some (some "foo") }

/-- A concrete document titled `foo 1`, whose base slug is `foo-1`. -/
def foo1Doc : Document := { title := some (some "foo 1") }

/-- A document whose `category` key is present but null. -/
def nullCategoryDoc : Document := { title := some (some "A"), category := some none }

/-- C10: an empty `--categories` list applies no filtering — identically to
not supplying the option — and with a non-empty list a document is kept iff it
is in the input and its raw `category` field is a present, non-null string
equal (string equality) to one of the listed names. -/
theorem category_filter_spec (docs : List Document) (l : List String) :
    categoryFilterStep (some []) docs = docs ∧
    categoryFilterStep none docs = docs ∧
    (l ≠ [] → ∀ d : Document,
      (d ∈ categoryFilterStep (some l) docs ↔
        d ∈ docs ∧ ∃ c, jget d.category = some c ∧ c ∈ l)) := by
  refine ⟨rfl, rfl, fun hl d => ?_⟩
  rw [categoryFilterStep]
  rw [if_neg hl]
  rw [List.mem_filter]
  constructor
  · rintro ⟨hmem, hcond⟩
    refine ⟨hmem, ?_⟩
    revert hcond
    cases h : jget d.category with
    | none => simp
    | some c => intro hc; exact ⟨c, rfl, by simpa using hc⟩
  · rintro ⟨hmem, c, hc, hcl⟩
    exact ⟨hmem, by simp [hc, hcl]⟩

/-- Witness for C10 at a concrete document and the allow-list `["article"]`. -/
theorem category_filter_witness :
    exArticle ∈ categoryFilterStep (some ["article"]) [exArticle] ↔
      exArticle ∈ [exArticle] ∧ ∃ c, jget exArticle.category = some c ∧ c ∈ ["article"] :=
  (category_filter_spec [exArticle] ["article"]).2.2 (by decide) exArticle

/-- The page sequence of the C4 counterexample: only the last page's cursor is
absent or null (the first page's cursor is the present, non-null empty
string). -/
def c4pages : List (Page String) := [⟨["a"], some ""⟩, ⟨["b"], none⟩]

/-- C4 counterexample: exactly the last page of `c4pages` has an absent/null
cursor, yet the loop stops at the first page's present-but-empty cursor and
drops the second page's results, so the claimed concatenation fails. -/
theorem fetch_all_stops_on_empty_cursor :
    (c4pages.getLast (by decide)).nextPageCursor = none ∧
    (∀ p ∈ c4pages.dropLast, p.nextPageCursor ≠ none) ∧
    fetch_all_documents c4pages = ["a"] ∧
    fetch_all_documents c4pages ≠ (c4pages.map Page.results).flatten := by decide

/-- C4 (amended): the loop stops exactly when the cursor is falsy — absent,
null or the empty string.  For any page sequence whose pages before the last
all carry a non-falsy cursor and whose last page's cursor is falsy, the fetch
returns the concatenation of every page's results in page order, each exactly
once, issues exactly one request per page, and (being a total function)
terminates. -/
theorem fetch_all_concat_of_falsy_last {α : Type} (front : List (Page α)) (last : Page α)
    (hmid : ∀ p ∈ front, cursorFalsy p.nextPageCursor = false)
    (hlast : cursorFalsy last.nextPageCursor = true) :
    fetch_all_documents (front ++ [last]) = ((front ++ [last]).map Page.results).flatten ∧
    fetchCallCount (front ++ [last]) = (front ++ [last]).length := by
  induction front with
  | nil => simp [fetch_all_documents, fetchCallCount, hlast]
  | cons p rest ih =>
    have hp := hmid p (by simp)
    obtain ⟨ih1, ih2⟩ := ih (fun r hr => hmid r (by simp [hr]))
    simp [fetch_all_documents, fetchCallCount, hp, ih1, ih2]
    omega

/-- Witness for C4's amended theorem at a concrete two-page sequence. -/
theorem fetch_all_concat_witness :
    fetch_all_documents [(⟨["a"], some "cur"⟩ : Page String), ⟨["b"], none⟩] = ["a", "b"] ∧
    fetchCallCount [(⟨["a"], some "cur"⟩ : Page String), ⟨["b"], none⟩] = 2 := by
  have h := fetch_all_concat_of_falsy_last [(⟨["a"], some "cur"⟩ : Page String)] ⟨["b"], none⟩
    (by decide) (by decide)
  exact ⟨h.1.trans (by decide), h.2.trans (by decide)⟩

/-- First highlight of the C3 counterexample. -/
def c3hl1 : Highlight := { content := some (some "h1") }

/-- Second highlight of the C3 counterexample, served on page 2. -/
def c3hl2 : Highlight := { content := some (some "h2") }

/-- A two-page highlight response. -/
def c3pages : List (Page Highlight) := [⟨[c3hl1], some "cur"⟩, ⟨[c3hl2], none⟩]

/-- C3 counterexample: on a two-page highlight response the enricher's
`fetch_highlights` returns only the first page's results, not the
Paginator-style accumulation over all pages (which `fetch_all_documents`
computes on the same pages). -/
theorem fetch_highlights_first_page_only :
    fetch_highlights c3pages = [c3hl1] ∧
    fetch_all_documents c3pages = [c3hl1, c3hl2] ∧
    fetch_highlights c3pages ≠ fetch_all_documents c3pages := by decide

/-- C3 (amended): the enricher attaches to every top-level document exactly
the first response page's results of the `parent_id = doc.id`,
`category = highlight` fetch; further pages are never requested. -/
theorem enrich_attaches_first_page (hlApi : String → List (Page Highlight))
    (docs : List Document) :
    (enrichAll hlApi docs).map Document.highlights =
      docs.map (fun d => some (fetch_highlights (hlApi (idOf d)))) := by
  simp [enrichAll]

/-- The quoting character list exactly as claim C6 states it (without `%`). -/
def specQuoteChars : List Char :=
  [':', Char.ofNat 123, Char.ofNat 125, '[', ']', '#', '&', '*', '!', '|', '>',
   Char.ofNat 39, '"', '@', Char.ofNat 96, ',']

/-- C6 counterexample: `"50%"` contains none of the characters the claim
lists, yet `yaml_escape` wraps it in quotes, because the source's character
set additionally contains `%`. -/
theorem yaml_escape_percent_quoted :
    ("50%".data.any (fun c => c ∈ specQuoteChars)) = false ∧
    yaml_escape (some "50%") = "\"50%\"" ∧
    yaml_escape (some "50%") ≠ "50%" := by decide

/-- C6 (amended): with `%` added to the character list, `yaml_escape` wraps a
string in double quotes with internal double quotes backslash-escaped iff the
string contains one of the listed characters, renders it unchanged otherwise,
and renders `None` as an empty quoted string. -/
theorem yaml_escape_spec (v : String) :
    yaml_escape none = "\"\"" ∧
    (v.data.any (fun c => c ∈ yamlSpecialChars) = false → yaml_escape (some v) = v) ∧
    (v.data.any (fun c => c ∈ yamlSpecialChars) = true →
      (yaml_escape (some v)).data =
        '"' :: (v.data.flatMap (fun c => if c = '"' then ['\\', c] else [c]) ++ ['"'])) := by
  refine ⟨rfl, fun h => ?_, fun h => ?_⟩
  · rw [yaml_escape]
    simp only [h]
    rfl
  · rw [yaml_escape]
    simp only [h, if_true]
    simp [escapeQuotes]

/-- Witness for C6's amended theorem: a colon-containing title is quoted with
the internal quote escaped, by the theorem's third conjunct. -/
theorem yaml_escape_spec_witness :
    (yaml_escape (some "a\":b")).data =
      '"' :: ("a\":b".data.flatMap (fun c => if c = '"' then ['\\', c] else [c]) ++ ['"']) :=
  (yaml_escape_spec "a\":b").2.2 (by decide)

/-- C2: the code contradicts the documented leniency policy.  A document
whose optional `category` field is present but null makes
`generate_section_index` raise — with a single `None` category key, `sorted`
succeeds but `cat.title()` is `None.title()`, an `AttributeError` — instead
of substituting a default. -/
theorem generate_section_index_null_category_raises :
    generate_section_index [nullCategoryDoc] "Reading Queue" "📋" "queue"
      "Articles and documents waiting to be read." = .error .attributeError := by
  rfl

/-- C5: every document assembled by the fetch phase has a null or absent
`parent_id` — so no document with a non-null `parent_id` reaches any bucket —
and when its `location` field is one of the five known raw values it belongs
to exactly one of the three buckets, following the static mapping
(new/later/shortlist to queue, archive to archive, feed to feed). -/
theorem bucket_totality_exclusivity (api : String → List (Page Document))
    (cats : Option (List String)) (d : Document)
    (hd : d ∈ fetchPhase api cats) :
    (jget d.parent_id).isNone = true ∧
    (∀ l, jget d.location = some l →
      ((l ∈ ["new", "later", "shortlist"] →
        d ∈ sectionDocs "queue" (fetchPhase api cats) ∧
        d ∉ sectionDocs "archive" (fetchPhase api cats) ∧
        d ∉ sectionDocs "feed" (fetchPhase api cats)) ∧
       (l = "archive" →
        d ∉ sectionDocs "queue" (fetchPhase api cats) ∧
        d ∈ sectionDocs "archive" (fetchPhase api cats) ∧
        d ∉ sectionDocs "feed" (fetchPhase api cats)) ∧
       (l = "feed" →
        d ∉ sectionDocs "queue" (fetchPhase api cats) ∧
        d ∉ sectionDocs "archive" (fetchPhase api cats) ∧
        d ∈ sectionDocs "feed" (fetchPhase api cats)))) := by
  have hparent : (jget d.parent_id).isNone = true := by
    simp only [fetchPhase, List.mem_flatMap] at hd
    obtain ⟨sl, _, loc, _, hmem⟩ := hd
    simp only [parentFilterStep, List.mem_filter] at hmem
    exact hmem.2
  refine ⟨hparent, fun l hl => ?_⟩
  have hsecm : ∀ b : String, (d ∈ sectionDocs b (fetchPhase api cats)) ↔
      ((locationsFor b).contains l = true) := by
    intro b
    rw [sectionDocs, List.mem_filter, inSection, hl]
    exact ⟨fun h => h.2, fun h => ⟨hd, h⟩⟩
  refine ⟨fun hmem => ?_, fun heq => ?_, fun heq => ?_⟩
  · rcases (by simpa using hmem : l = "new" ∨ l = "later" ∨ l = "shortlist") with rfl | rfl | rfl
    all_goals
      exact ⟨(hsecm "queue").mpr (by decide),
        fun h => absurd ((hsecm "archive").mp h) (by decide),
        fun h => absurd ((hsecm "feed").mp h) (by decide)⟩
  · subst heq
    exact ⟨fun h => absurd ((hsecm "queue").mp h) (by decide),
      (hsecm "archive").mpr (by decide),
      fun h => absurd ((hsecm "feed").mp h) (by decide)⟩
  · subst heq
    exact ⟨fun h => absurd ((hsecm "queue").mp h) (by decide),
      fun h => absurd ((hsecm "archive").mp h) (by decide),
      (hsecm "feed").mpr (by decide)⟩

/-- A concrete API serving `exArticle` for the `new` location filter. -/
def c5api : String → List (Page Document) :=
  fun loc => if loc = "new" then [{ results := [exArticle] }] else [{ results := [] }]

/-- Witness for C5 at `exArticle` (location `new`): it lands in the queue
bucket and in no other. -/
theorem bucket_totality_witness :
    exArticle ∈ sectionDocs "queue" (fetchPhase c5api none) ∧
    exArticle ∉ sectionDocs "archive" (fetchPhase c5api none) ∧
    exArticle ∉ sectionDocs "feed" (fetchPhase c5api none) :=
  ((bucket_totality_exclusivity c5api none exArticle (by decide)).2 "new" (by decide)).1
    (by decide)

/-- Right-cancellation of string append. -/
theorem string_append_right_cancel {a b c : String} (h : a ++ c = b ++ c) : a = b := by
  apply string_ext
  have hd := congrArg String.data h
  simp only [String.data_append] at hd
  exact List.append_cancel_right hd

/-- Left-cancellation of string append. -/
theorem string_append_left_cancel {a b c : String} (h : c ++ a = c ++ b) : a = b := by
  apply string_ext
  have hd := congrArg String.data h
  simp only [String.data_append] at hd
  exact List.append_cancel_left hd

/-- The `"{section}/{slug}"` keys of `used_slugs` are injective in the slug
for a fixed section. -/
theorem slugKey_inj {sectionName a b : String}
    (h : sectionName ++ "/" ++ a = sectionName ++ "/" ++ b) : a = b :=
  string_append_left_cancel h

/-- Two decompositions of a character list around a separator with
separator-free tails agree. -/
theorem sep_split_unique {a b x y : List Char}
    (h : a ++ '-' :: x = b ++ '-' :: y) ( hx : '-' ∉ x) (hy : '-' ∉ y) :
    a = b ∧ x = y := by
  induction a generalizing b with
  | nil =>
    cases b with
    | nil => simpa using h
    | cons c b' =>
      simp only [List.nil_append, List.cons_append, List.cons.injEq] at h
      exact absurd (h.2 ▸ List.mem_append_right b' (List.mem_cons_self _ _)) hx
  | cons c a' ih =>
    cases b with
    | nil =>
      simp only [List.cons_append, List.nil_append, List.cons.injEq] at h
      exact absurd (h.2 ▸ List.mem_append_right a' (List.mem_cons_self _ _)) hy
    | cons c' b' =>
      simp only [List.cons_append, List.cons.injEq] at h
      obtain ⟨h1, h2⟩ := h
      obtain ⟨ha, hxy⟩ := ih h2
      exact ⟨by rw [h1, ha], hxy⟩

/-- A suffixed name determines its base slug and its suffix number. -/
theorem suffixed_eq_iff {s t : String} {k m : Nat}
    (h : s ++ "-" ++ natRepr k = t ++ "-" ++ natRepr m) : s = t ∧ k = m := by
  have hd := congrArg String.data h
  simp only [String.data_append] at hd
  rw [List.append_assoc, List.append_assoc] at hd
  have hsep := sep_split_unique (by simpa using hd)
    (hyphen_not_mem_natReprChars) (hyphen_not_mem_natReprChars)
  exact ⟨string_ext hsep.1, natRepr_injective (string_ext hsep.2)⟩

/-- A plain slug never equals a suffixed form of a slug it extends. -/
theorem plain_ne_suffixed (s t : String) (k : Nat) : t ++ "-" ++ natRepr k ≠ t := by
  intro h
  have hd := congrArg (fun z : String => z.data.length) h
  simp only [String.data_append, List.length_append] at hd
  have hne := natReprChars_ne_nil k
  have : (natRepr k).data.length ≠ 0 := by
    simpa [natRepr, List.length_eq_zero] using hne
  simp at hd
  omega

/-- Name given to the k-th occurrence (from 0) of a base slug in a bucket. -/
def nthSlugName (slug : String) (k : Nat) : String :=
  if k = 0 then slug else slug ++ "-" ++ natRepr k

/-- Occurrence-counter update after processing one slug. -/
def bumpCnt (cnt : String → Nat) (s : String) : String → Nat :=
  fun t => if t = s then cnt s + 1 else cnt t

/-- Specification form of the write loop: each document's name is determined
by how many earlier documents of the bucket share its base slug. -/
def specNames (cnt : String → Nat) : List String → List String
  | [] => []
  | s :: rest => (nthSlugName s (cnt s) ++ ".md") :: specNames (bumpCnt cnt s) rest

/-- The write loop agrees with the occurrence-count specification whenever the
`used_slugs` state agrees with the occurrence counter. -/
theorem writeNames_eq_specNames (sectionName : String) (slugs : List String)
    (st : String → Option Nat) (cnt : String → Nat)
    (hinv : ∀ s : String, st (sectionName ++ "/" ++ s) =
      if cnt s = 0 then none else some (cnt s - 1)) :
    writeNames sectionName slugs st = specNames cnt slugs := by
  induction slugs generalizing st cnt with
  | nil => rfl
  | cons s rest ih =>
    rw [writeNames, specNames]
    rcases h0 : cnt s with _ | n
    · have hst : st (sectionName ++ "/" ++ s) = none := by rw [hinv s, h0]; rfl
      simp only [resolveSlug, hst, nthSlugName, if_pos rfl]
      refine congrArg₂ List.cons rfl ?_
      apply ih
      intro t
      by_cases ht : t = s
      · subst ht
        rw [if_pos rfl, bumpCnt, if_pos rfl, h0]
        rfl
      · rw [if_neg (fun hk => ht (slugKey_inj hk)), hinv t, bumpCnt, if_neg ht]
    · have hst : st (sectionName ++ "/" ++ s) = some n := by
        rw [hinv s, h0]; rfl
      simp only [resolveSlug, hst, nthSlugName, if_neg (Nat.succ_ne_zero n)]
      refine congrArg₂ List.cons rfl ?_
      apply ih
      intro t
      by_cases ht : t = s
      · subst ht
        rw [if_pos rfl, bumpCnt, if_pos rfl, h0]
        rfl
      · rw [if_neg (fun hk => ht (slugKey_inj hk)), hinv t, bumpCnt, if_neg ht]

/-- Every name `specNames` emits comes from a slug of the list with an
occurrence index at least the starting count of that slug. -/
theorem mem_specNames {x : String} {l : List String} {cnt : String → Nat}
    (h : x ∈ specNames cnt l) :
    ∃ s, s ∈ l ∧ ∃ k, cnt s ≤ k ∧ x = nthSlugName s k ++ ".md" := by
  induction l generalizing cnt with
  | nil => simp [specNames] at h
  | cons s rest ih =>
    rw [specNames] at h
    rcases List.mem_cons.mp h with h | h
    · exact ⟨s, List.mem_cons_self _ _, cnt s, Nat.le_refl _, h⟩
    · obtain ⟨t, ht, k, hk, hx⟩ := ih h
      refine ⟨t, List.mem_cons_of_mem _ ht, k, ?_, hx⟩
      have hb : cnt t ≤ bumpCnt cnt s t := by
        rw [bumpCnt]
        by_cases hts : t = s
        · subst hts; simp
        · simp [hts]
      omega

/-- Distinctness of the emitted names under the no-suffix-overlap proviso on
the base slugs. -/
theorem specNames_nodup (slugs : List String) (cnt : String → Nat)
    (H : ∀ s₁ ∈ slugs, ∀ s₂ ∈ slugs, ∀ n : Nat, 1 ≤ n → s₂ ≠ s₁ ++ "-" ++ natRepr n) :
    (specNames cnt slugs).Nodup := by
  induction slugs generalizing cnt with
  | nil => simp [specNames]
  | cons s rest ih =>
    rw [specNames, List.nodup_cons]
    constructor
    · intro hmem
      obtain ⟨t, ht, k, hk, hx⟩ := mem_specNames hmem
      have he : nthSlugName s (cnt s) = nthSlugName t k := string_append_right_cancel hx
      by_cases hts : t = s
      · subst hts
        have hk' : cnt t + 1 ≤ k := by
          rw [bumpCnt, if_pos rfl] at hk
          exact hk
        rw [nthSlugName, nthSlugName] at he
        cases h0 : cnt t with
        | zero =>
          rw [h0, if_pos rfl, if_neg (by omega)] at he
          exact plain_ne_suffixed t t k he.symm
        | succ n =>
          rw [h0, if_neg (Nat.succ_ne_zero n), if_neg (by omega)] at he
          have := (suffixed_eq_iff he).2
          omega
      · have hsl : s ∈ s :: rest := List.mem_cons_self _ _
        have htl : t ∈ s :: rest := List.mem_cons_of_mem _ ht
        rcases h0 : cnt s with _ | n <;> rcases hk0 : k with _ | m
        · rw [nthSlugName, nthSlugName, h0, hk0, if_pos rfl, if_pos rfl] at he
          exact hts he.symm
        · rw [nthSlugName, nthSlugName, h0, hk0, if_pos rfl,
            if_neg (Nat.succ_ne_zero m)] at he
          exact H t htl s hsl (m + 1) (by omega) he
        · rw [nthSlugName, nthSlugName, h0, hk0, if_neg (Nat.succ_ne_zero n),
            if_pos rfl] at he
          exact H s hsl t htl (n + 1) (by omega) he.symm
        · rw [nthSlugName, nthSlugName, h0, hk0, if_neg (Nat.succ_ne_zero n),
            if_neg (Nat.succ_ne_zero m)] at he
          exact hts (suffixed_eq_iff he).1.symm
    · exact ih (bumpCnt cnt s)
        (fun a ha b hb => H a (List.mem_cons_of_mem _ ha) b (List.mem_cons_of_mem _ hb))

/-- C1 counterexample: in one bucket the titles `foo`, `foo`, `foo 1` produce
the files `foo.md`, `foo-1.md` and then `foo-1.md` again — the collision
resolution assigns an already-used name, so the claimed pairwise distinctness
fails. -/
theorem bucket_filenames_clash :
    bucketFilenames "queue" [fooDoc, fooDoc, foo1Doc] = ["foo.md", "foo-1.md", "foo-1.md"] ∧
    ¬ (bucketFilenames "queue" [fooDoc, fooDoc, foo1Doc]).Nodup := by decide

/-- C1 (amended): within one bucket the generated filenames are pairwise
distinct provided no document's base slug equals another document's base slug
extended by `-n` for a positive decimal `n` (exactly the overlap the
counterexample exhibits). -/
theorem bucket_filenames_nodup_of_no_suffix_overlap (sectionName : String)
    (docs : List Document)
    (H : ∀ d₁ ∈ docs, ∀ d₂ ∈ docs, ∀ n : Nat, 1 ≤ n →
      baseSlug d₂ ≠ baseSlug d₁ ++ "-" ++ natRepr n) :
    (bucketFilenames sectionName docs).Nodup := by
  rw [bucketFilenames,
    writeNames_eq_specNames sectionName (docs.map baseSlug) (fun _ => none) (fun _ => 0)
      (fun s => rfl)]
  apply specNames_nodup
  intro s₁ hs₁ s₂ hs₂ n hn
  obtain ⟨d₁, hd₁, rfl⟩ := List.mem_map.mp hs₁
  obtain ⟨d₂, hd₂, rfl⟩ := List.mem_map.mp hs₂
  exact H d₁ hd₁ d₂ hd₂ n hn

theorem take_len_succ_append (l rest : List Char) (c : Char) :
    (l ++ c :: rest).take (l.length + 1) = l ++ [c] := by
  induction l with
  | nil => simp
  | cons a l ih => simp [ih]

/-- A string whose first characters do not read `{slug}-` is not a suffixed
form of that slug, whatever the suffix number. -/
theorem ne_suffixed_of_take {s₁ s₂ : String} {n : Nat}
    (h : s₂.data.take (s₁.data.length + 1) ≠ s₁.data ++ ['-']) :
    s₂ ≠ s₁ ++ "-" ++ natRepr n := by
  intro he
  apply h
  rw [he]
  have : (s₁ ++ "-" ++ natRepr n).data = s₁.data ++ '-' :: (natRepr n).data := by
    simp [String.data_append]
  rw [this, take_len_succ_append]

/-- Witness for C1's amended theorem on a concrete batch without the overlap. -/
theorem bucket_filenames_nodup_witness :
    (bucketFilenames "queue" [fooDoc, fooDoc, exArticle]).Nodup :=
  bucket_filenames_nodup_of_no_suffix_overlap "queue" [fooDoc, fooDoc, exArticle] (by
    intro d₁ hd₁ d₂ hd₂ n hn
    simp only [List.mem_cons, List.not_mem_nil, or_false] at hd₁ hd₂
    rcases hd₁ with rfl | rfl | rfl <;> rcases hd₂ with rfl | rfl | rfl <;>
      exact ne_suffixed_of_take (by decide))

/-- Position-wise reading of the occurrence-count specification: the name at
index `i` is determined by the slug there and by how many earlier list
entries carry the same slug (offset by the starting counter). -/
theorem specNames_getElem (cnt : String → Nat) (l : List String) (i : Nat) (s : String)
    (hs : l[i]? = some s) :
    (specNames cnt l)[i]? =
      some (nthSlugName s (cnt s + (l.take i).countP (fun t => t = s)) ++ ".md") := by
  induction l generalizing cnt i with
  | nil => simp at hs
  | cons a rest ih =>
    cases i with
    | zero =>
      simp only [List.getElem?_cons_zero, Option.some.injEq] at hs
      subst hs
      simp [specNames]
    | succ j =>
      simp only [List.getElem?_cons_succ] at hs
      rw [specNames]
      simp only [List.getElem?_cons_succ]
      rw [ih (bumpCnt cnt a) j hs]
      have hcnt : bumpCnt cnt a s + (rest.take j).countP (fun t => t = s) =
          cnt s + ((a :: rest).take (j + 1)).countP (fun t => t = s) := by
        rw [List.take_succ_cons, List.countP_cons, bumpCnt]
        by_cases h : s = a
        · subst h
          rw [if_pos rfl, if_pos (by simp)]
          omega
        · rw [if_neg h]
          simp [Ne.symm h]
      rw [hcnt]

/-- C8: in any bucket — other documents with different slugs may be present
and do not interfere — the i-th document processed (0-based) receives the file
name `{slug}.md` when no earlier document of the bucket shares its base slug,
and `{slug}-k.md` when exactly k earlier documents share it: so of two
identically titled documents the first gets `{slug}.md` unmodified and the
second `{slug}-1.md`, the suffix starting at 1 and incrementing by 1 per
further collision, in document-processing order. -/
theorem collision_suffix_sequence (sectionName : String) (docs : List Document) (i : Nat)
    (d : Document) (hd : docs[i]? = some d) :
    (bucketFilenames sectionName docs)[i]? =
      some (nthSlugName (baseSlug d)
        ((docs.take i).countP (fun d' => baseSlug d' = baseSlug d)) ++ ".md") := by
  rw [bucketFilenames,
    writeNames_eq_specNames sectionName (docs.map baseSlug) (fun _ => none) (fun _ => 0)
      (fun s => rfl)]
  have hs : (docs.map baseSlug)[i]? = some (baseSlug d) := by
    rw [List.getElem?_map, hd]
    rfl
  rw [specNames_getElem (fun _ => 0) (docs.map baseSlug) i (baseSlug d) hs, ← List.map_take,
    List.countP_map, Nat.zero_add]
  refine congrArg Option.some (congrArg (fun n => nthSlugName (baseSlug d) n ++ ".md") ?_)
  refine List.countP_congr fun d' _ => ?_
  simp only [Function.comp_apply]

/-- Witness for C8 on a mixed bucket: with an unrelated document in between,
the two `foo`-titled documents still receive `foo.md` and `foo-1.md`. -/
theorem collision_suffix_witness :
    (bucketFilenames "queue" [fooDoc, exArticle, fooDoc])[0]? = some "foo.md" ∧
    (bucketFilenames "queue" [fooDoc, exArticle, fooDoc])[2]? = some "foo-1.md" :=
  ⟨(collision_suffix_sequence "queue" [fooDoc, exArticle, fooDoc] 0 fooDoc
      (by decide)).trans (by decide),
   (collision_suffix_sequence "queue" [fooDoc, exArticle, fooDoc] 2 fooDoc
      (by decide)).trans (by decide)⟩

/-- Word count as claim C9 words it: the document's `word_count` with a
missing or null value counted as 0. -/
def specWordCount (d : Document) : Int :=
  match d.word_count with
  | some (some n) => n
  | _ => 0

/-- Location-maps-to-bucket as claim C9 words it. -/
def specLocIn (d : Document) (locs : List String) : Bool :=
  match d.location with
  | some (some l) => locs.contains l
  | _ => false

/-- The raw locations of each bucket as the claims list them. -/
def claimBucketLocs : String → List String
  | "queue" => ["new", "later", "shortlist"]
  | "archive" => ["archive"]
  | "feed" => ["feed"]
  | _ => []

theorem lookup_none_iff (acc : List (Option String × Nat)) (c : Option String) :
    acc.lookup c = none ↔ c ∉ acc.map Prod.fst := by
  induction acc with
  | nil => simp
  | cons kv rest ih =>
    obtain ⟨k, v⟩ := kv
    by_cases h : c = k
    · subst h; simp [List.lookup]
    · simp [List.lookup, beq_eq_false_iff_ne.mpr h, ih, h, Ne.symm h]

theorem lookup_eq_some_of_mem {acc : List (Option String × Nat)} {c : Option String} {n : Nat}
    (hnd : (acc.map Prod.fst).Nodup) (h : (c, n) ∈ acc) : acc.lookup c = some n := by
  induction acc with
  | nil => simp at h
  | cons kv rest ih =>
    obtain ⟨k, v⟩ := kv
    simp only [List.map_cons, List.nodup_cons] at hnd
    rcases List.mem_cons.mp h with h1 | h1
    · rw [Prod.mk.injEq] at h1
      obtain ⟨rfl, rfl⟩ := h1
      simp [List.lookup]
    · have hck : c ≠ k := by
        intro he
        exact hnd.1 (List.mem_map.mpr ⟨(c, n), h1, congrArg Prod.fst (by rw [he])⟩)
      simp [List.lookup, beq_eq_false_iff_ne.mpr hck, ih hnd.2 h1]

theorem mem_of_lookup_eq_some {acc : List (Option String × Nat)} {c : Option String} {n : Nat}
    (h : acc.lookup c = some n) : (c, n) ∈ acc := by
  induction acc with
  | nil => simp [List.lookup] at h
  | cons kv rest ih =>
    obtain ⟨k, v⟩ := kv
    by_cases hck : c = k
    · subst hck
      simp [List.lookup] at h
      simp [h]
    · simp [List.lookup, beq_eq_false_iff_ne.mpr hck] at h
      exact List.mem_cons_of_mem _ (ih h)

theorem bumpCat_lookup (acc : List (Option String × Nat)) (c c' : Option String) :
    (bumpCat acc c).lookup c' =
      if c' = c then some (((acc.lookup c).getD 0) + 1) else acc.lookup c' := by
  induction acc with
  | nil =>
    by_cases h : c' = c
    · subst h; simp [bumpCat, List.lookup]
    · simp [bumpCat, List.lookup, beq_eq_false_iff_ne.mpr h, h]
  | cons kv rest ih =>
    obtain ⟨k, v⟩ := kv
    by_cases hkc : k = c
    · subst hkc
      by_cases h : c' = k
      · subst h; simp [bumpCat, List.lookup]
      · simp [bumpCat, List.lookup, beq_eq_false_iff_ne.mpr h, h]
    · by_cases h : c' = k
      · have hcc : ¬ c' = c := fun hh => hkc (by rw [← h]; exact hh)
        rw [bumpCat, if_neg hkc, if_neg hcc]
        simp [List.lookup, h]
      · rw [bumpCat, if_neg hkc]
        simp only [List.lookup, beq_eq_false_iff_ne.mpr h,
          beq_eq_false_iff_ne.mpr (fun hh : c = k => hkc hh.symm)]
        rw [ih]

theorem bumpCat_keys (acc : List (Option String × Nat)) (c : Option String) :
    (bumpCat acc c).map Prod.fst =
      if (acc.lookup c).isSome then acc.map Prod.fst else acc.map Prod.fst ++ [c] := by
  induction acc with
  | nil => simp [bumpCat, List.lookup]
  | cons kv rest ih =>
    obtain ⟨k, v⟩ := kv
    by_cases hkc : k = c
    · subst hkc; simp [bumpCat, List.lookup]
    · simp only [bumpCat, if_neg hkc, List.map_cons, List.lookup,
        beq_eq_false_iff_ne.mpr (fun hh : c = k => hkc hh.symm)]
      rw [ih]
      by_cases hs : (rest.lookup c).isSome <;> simp [hs]

theorem bumpCat_keys_nodup {acc : List (Option String × Nat)} {c : Option String}
    (h : (acc.map Prod.fst).Nodup) : ((bumpCat acc c).map Prod.fst).Nodup := by
  rw [bumpCat_keys]
  by_cases hs : (acc.lookup c).isSome
  · simpa [hs] using h
  · have hmem : c ∉ acc.map Prod.fst :=
      (lookup_none_iff acc c).mp (Option.not_isSome_iff_eq_none.mp hs)
    simp only [hs, if_false, Bool.false_eq_true]
    exact List.Nodup.append h (List.nodup_singleton c) (by simpa using hmem)

theorem countCategories_fold (ds : List Document) (acc : List (Option String × Nat))
    (hnd : (acc.map Prod.fst).Nodup) :
    (((ds.foldl (fun a d => bumpCat a (categoryKey d)) acc).map Prod.fst).Nodup) ∧
    (∀ c, ((ds.foldl (fun a d => bumpCat a (categoryKey d)) acc).lookup c).getD 0 =
       (acc.lookup c).getD 0 + ds.countP (fun d => categoryKey d = c)) ∧
    (∀ c, ((ds.foldl (fun a d => bumpCat a (categoryKey d)) acc).lookup c).isSome ↔
       ((acc.lookup c).isSome ∨ 0 < ds.countP (fun d => categoryKey d = c))) := by
  induction ds generalizing acc with
  | nil => simp [hnd]
  | cons d ds ih =>
    obtain ⟨ih1, ih2, ih3⟩ := ih (bumpCat acc (categoryKey d)) (bumpCat_keys_nodup hnd)
    simp only [List.foldl_cons]
    refine ⟨ih1, fun c => ?_, fun c => ?_⟩
    · rw [ih2 c, bumpCat_lookup, List.countP_cons]
      split_ifs with h1 h2 h2 <;> (try simp_all) <;> omega
    · rw [ih3 c, bumpCat_lookup, List.countP_cons]
      split_ifs with h1 h2 h2 <;> (try simp_all) <;> omega

/-- Membership characterization of the category-count table. -/
theorem countCategories_mem (docs : List Document) (c : Option String) (n : Nat) :
    ((c, n) ∈ countCategories docs ↔
      (0 < n ∧ n = docs.countP (fun d => categoryKey d = c))) := by
  obtain ⟨h1, h2, h3⟩ := countCategories_fold docs [] (by simp)
  rw [countCategories]
  constructor
  · intro hmem
    have hl := lookup_eq_some_of_mem h1 hmem
    have hg := h2 c
    have hs := (h3 c).mp (by rw [hl]; rfl)
    rw [hl] at hg
    simp only [Option.getD_some, List.lookup_nil, Option.getD_none, Nat.zero_add] at hg
    simp only [List.lookup_nil, Option.isSome_none, Bool.false_eq_true, false_or] at hs
    exact ⟨by omega, hg⟩
  · rintro ⟨hpos, rfl⟩
    have hs := (h3 c).mpr (Or.inr hpos)
    obtain ⟨m, hm⟩ := Option.isSome_iff_exists.mp hs
    have hg := h2 c
    rw [hm] at hg
    simp only [Option.getD_some, List.lookup_nil, Option.getD_none, Nat.zero_add] at hg
    exact hg ▸ mem_of_lookup_eq_some hm

/-- C9: the overview's stats are as claimed — the total item count is the
list's length (the source renders `len(all_docs)` directly), the total word
count sums each document's `word_count` with missing/null counted as 0, each
bucket count is the number of documents whose `location` maps to that bucket
under the static table, and the category breakdown lists exactly the
categories occurring among the documents, each with its occurrence count,
sorted by descending count. -/
theorem generate_index_stats_spec (docs : List Document) (c : Option String) (n : Nat) :
    totalWords docs = (docs.map specWordCount).sum ∧
    (sectionDocs "queue" docs).length =
      docs.countP (fun d => specLocIn d (claimBucketLocs "queue")) ∧
    (sectionDocs "archive" docs).length =
      docs.countP (fun d => specLocIn d (claimBucketLocs "archive")) ∧
    (sectionDocs "feed" docs).length =
      docs.countP (fun d => specLocIn d (claimBucketLocs "feed")) ∧
    ((c, n) ∈ sortedCategories docs ↔
      (0 < n ∧ n = docs.countP (fun d => categoryKey d = c))) ∧
    (sortedCategories docs).Pairwise (fun a b => b.2 ≤ a.2) := by
  have hloc : ∀ b ∈ ["queue", "archive", "feed"],
      (sectionDocs b docs).length = docs.countP (fun d => specLocIn d (claimBucketLocs b)) := by
    intro b hb
    have hbl : locationsFor b = claimBucketLocs b := by
      rcases (by simpa using hb : b = "queue" ∨ b = "archive" ∨ b = "feed")
        with rfl | rfl | rfl <;> decide
    rw [sectionDocs, ← List.countP_eq_length_filter]
    refine List.countP_congr fun d _ => ?_
    rcases hl : d.location with _ | ⟨_ | l⟩ <;>
      simp [inSection, specLocIn, jget, hl, hbl]
  refine ⟨?_, hloc "queue" (by simp), hloc "archive" (by simp), hloc "feed" (by simp), ?_, ?_⟩
  · rw [totalWords]
    refine congrArg List.sum (List.map_congr_left fun d _ => ?_)
    rcases hw : d.word_count with _ | ⟨_ | n⟩
    · simp [indexWordCount, specWordCount, jgetD, pyOrInt, hw]
    · simp [indexWordCount, specWordCount, jgetD, pyOrInt, hw]
    · by_cases h : n = 0 <;> simp [indexWordCount, specWordCount, jgetD, pyOrInt, hw, h]
  · rw [sortedCategories, List.mem_mergeSort]
    exact countCategories_mem docs c n
  · have hs : (List.mergeSort (countCategories docs)
        (fun a b : Option String × Nat => decide (b.2 ≤ a.2))).Pairwise
        (fun a b => decide (b.2 ≤ a.2) = true) :=
      List.sorted_mergeSort
        (fun a b c hab hbc => by
          simp only [decide_eq_true_eq] at hab hbc ⊢
          omega)
        (fun a b => by
          simp only [Bool.or_eq_true, decide_eq_true_eq]
          omega)
        (countCategories docs)
    rw [sortedCategories]
    exact hs.imp (by simp only [decide_eq_true_eq]; exact fun h => h)

theorem isDigit_range {c : Char} (h : c.isDigit = true) : 48 ≤ c.toNat ∧ c.toNat ≤ 57 := by
  rw [Char.isDigit] at h
  simp only [Bool.and_eq_true, decide_eq_true_eq] at h
  exact ⟨h.1, h.2⟩

theorem digitVal_lt_ten {c : Char} (h : c.isDigit = true) : digitVal c < 10 := by
  have := isDigit_range h
  rw [digitVal]
  omega

theorem digitChar_digitVal {c : Char} (h : c.isDigit = true) : Nat.digitChar (digitVal c) = c := by
  obtain ⟨h1, h2⟩ := isDigit_range h
  have hofnat := Char.ofNat_toNat c
  have hlt : c.toNat - 48 < 10 := by omega
  have hch : Nat.digitChar (c.toNat - 48) = Char.ofNat (48 + (c.toNat - 48)) := by
    interval_cases hk : (c.toNat - 48) <;> decide
  rw [digitVal, hch, show 48 + (c.toNat - 48) = c.toNat from by omega, hofnat]

theorem pad2_digits {a b : Char} (ha : a.isDigit = true) (hb : b.isDigit = true) :
    pad2 (10 * digitVal a + digitVal b) = [a, b] := by
  have hva := digitVal_lt_ten ha
  have hvb := digitVal_lt_ten hb
  rw [pad2,
    show (10 * digitVal a + digitVal b) / 10 % 10 = digitVal a from by omega,
    show (10 * digitVal a + digitVal b) % 10 = digitVal b from by omega,
    digitChar_digitVal ha, digitChar_digitVal hb]

theorem pad4_digits {a b c d : Char} (ha : a.isDigit = true) (hb : b.isDigit = true)
    (hc : c.isDigit = true) (hd : d.isDigit = true) :
    pad4 (digitsVal [a, b, c, d]) = [a, b, c, d] := by
  have hva := digitVal_lt_ten ha
  have hvb := digitVal_lt_ten hb
  have hvc := digitVal_lt_ten hc
  have hvd := digitVal_lt_ten hd
  have hval : digitsVal [a, b, c, d] =
      1000 * digitVal a + 100 * digitVal b + 10 * digitVal c + digitVal d := by
    simp [digitsVal]
    ring
  rw [pad4, hval,
    show (1000 * digitVal a + 100 * digitVal b + 10 * digitVal c + digitVal d) / 1000 % 10 =
      digitVal a from by omega,
    show (1000 * digitVal a + 100 * digitVal b + 10 * digitVal c + digitVal d) / 100 % 10 =
      digitVal b from by omega,
    show (1000 * digitVal a + 100 * digitVal b + 10 * digitVal c + digitVal d) / 10 % 10 =
      digitVal c from by omega,
    show (1000 * digitVal a + 100 * digitVal b + 10 * digitVal c + digitVal d) % 10 =
      digitVal d from by omega,
    digitChar_digitVal ha, digitChar_digitVal hb, digitChar_digitVal hc, digitChar_digitVal hd]

/-- Inversion of the `fromisoformat` model: a successful parse pins the first
ten characters to the extended date shape, and `strftime("%Y-%m-%d")` renders
exactly those ten characters back. -/
theorem py_fromisoformat_shape {l : List Char} {y m d : Nat}
    (h : py_fromisoformat l = some (y, m, d)) :
    (strfDate y m d).data = l.take 10 ∧ (∀ c ∈ l.take 10, c.isDigit = true ∨ c = '-') := by
  rcases l with _ | ⟨c1, _ | ⟨c2, _ | ⟨c3, _ | ⟨c4, _ | ⟨c5, _ | ⟨c6, _ | ⟨c7, _ | ⟨c8, _ |
    ⟨c9, _ | ⟨c10, rest⟩⟩⟩⟩⟩⟩⟩⟩⟩⟩
  all_goals try (exact Option.noConfusion h)
  simp only [py_fromisoformat] at h
  split_ifs at h with hcond1 hcond2
  simp only [Bool.and_eq_true, decide_eq_true_eq] at hcond1
  obtain ⟨⟨⟨⟨⟨⟨⟨⟨⟨hd1, hd2⟩, hd3⟩, hd4⟩, hh1⟩, hh2⟩, hd5⟩, hd6⟩, hd7⟩, hd8⟩ := hcond1
  simp only [Option.some.injEq, Prod.mk.injEq] at h
  obtain ⟨hy, hm, hd⟩ := h
  subst hh1
  subst hh2
  subst hy
  subst hm
  subst hd
  have htake : (c1 :: c2 :: c3 :: c4 :: '-' :: c6 :: c7 :: '-' :: c9 :: c10 :: rest).take 10 =
      [c1, c2, c3, c4, '-', c6, c7, '-', c9, c10] := rfl
  rw [htake]
  constructor
  · show pad4 (digitsVal [c1, c2, c3, c4]) ++
      '-' :: (pad2 (10 * digitVal c6 + digitVal c7) ++
        '-' :: pad2 (10 * digitVal c9 + digitVal c10)) = _
    rw [pad4_digits hd1 hd2 hd3 hd4, pad2_digits hd5 hd6, pad2_digits hd7 hd8]
    rfl
  · intro c hcm
    simp only [List.mem_cons, List.not_mem_nil, or_false] at hcm
    rcases hcm with rfl | rfl | rfl | rfl | rfl | rfl | rfl | rfl | rfl | rfl <;>
      simp [hd1, hd2, hd3, hd4, hd5, hd6, hd7, hd8]

theorem replaceZ_take_or_plus (n : Nat) (l : List Char) :
    (replaceZ l).take n = l.take n ∨ '+' ∈ (replaceZ l).take n := by
  induction l generalizing n with
  | nil => left; simp [replaceZ]
  | cons c rest ih =>
    cases n with
    | zero => left; simp
    | succ n =>
      by_cases hz : c = 'Z'
      · subst hz
        right
        simp [replaceZ]
      · rcases ih n with h | h
        · left; simp [replaceZ, hz, h]
        · right
          simp only [replaceZ, if_neg hz, List.take_succ_cons, List.mem_cons]
          exact Or.inr h

/-- C7: a timestamp the `fromisoformat` model parses — with a trailing literal
`Z` tolerated through the `Z → +00:00` replacement — is reduced to its
10-character `YYYY-MM-DD` leading segment (e.g. `2024-03-15T10:30:00Z` gives
`2024-03-15`); an unparseable non-empty string falls back to its first 10
characters without raising (so `not-a-date` is returned unchanged); and on
missing/null/empty input the `saved_at` / `published` header line is omitted
in the per-file variant. -/
theorem format_date_spec (s : String) :
    ((py_fromisoformat (replaceZ s.data)).isSome = true →
      format_date (some s) = some ⟨s.data.take 10⟩) ∧
    (py_fromisoformat (replaceZ s.data) = none → s ≠ "" →
      format_date (some s) = some ⟨s.data.take 10⟩) ∧
    format_date none = none ∧
    format_date (some "") = none ∧
    (∀ doc : Document, (jget doc.saved_at = none ∨ jget doc.saved_at = some "") →
      savedAtLines doc = []) ∧
    (∀ doc : Document, (jget doc.published_date = none ∨ jget doc.published_date = some "") →
      publishedLines doc = []) := by
  refine ⟨fun hp => ?_, fun hp hne => ?_, rfl, rfl, ?_, ?_⟩
  · obtain ⟨⟨y, m, d⟩, hm⟩ := Option.isSome_iff_exists.mp hp
    have hs_ne : s ≠ "" := by
      intro he
      rw [he] at hm
      simp [replaceZ, py_fromisoformat] at hm
    rw [format_date, if_neg hs_ne, hm]
    obtain ⟨h1, h2⟩ := py_fromisoformat_shape hm
    have hplus : '+' ∉ (replaceZ s.data).take 10 := by
      intro hmem
      rcases h2 '+' hmem with h | h
      · exact absurd h (by decide)
      · exact absurd h (by decide)
    have htake : (replaceZ s.data).take 10 = s.data.take 10 := by
      rcases replaceZ_take_or_plus 10 s.data with h | h
      · exact h
      · exact absurd h hplus
    exact congrArg Option.some (string_ext (h1.trans htake))
  · rw [format_date, if_neg hne, hp]
  · rintro doc (h | h) <;> rw [savedAtLines, h] <;> rfl
  · rintro doc (h | h) <;> rw [publishedLines, h] <;> rfl

/-- Witness for C7: the claim's own examples. -/
theorem format_date_spec_witness :
    format_date (some "2024-03-15T10:30:00Z") = some "2024-03-15" ∧
    format_date (some "not-a-date") = some "not-a-date" := by
  constructor
  · exact ((format_date_spec "2024-03-15T10:30:00Z").1 (by decide)).trans (by decide)
  · exact ((format_date_spec "not-a-date").2.1 (by decide) (by decide)).trans (by decide)

end RW
